import Mathlib

/-!
# Verification of the MitreCVE knowledge-graph pipeline

A shallow embedding of `mitrejson.py` (corpus loader, graph builder,
embedding indexer) and `mitre_processor2.py` (platform filter), with
theorems settling the specification claims.

JSON values are modelled by `JValue`; Python dictionaries by association
lists with first-match lookup (keys are unique in parsed JSON objects).
The networkx `DiGraph` is modelled by insertion-ordered association lists
of nodes and edges, with the library's documented upsert semantics:
`add_node` merges attribute dictionaries, `add_edge` implicitly adds
missing endpoint nodes.
-/

/-- A JSON value: string, array, object, or null.  Numbers and booleans do
not occur in any field the program reads, so they are omitted. -/
inductive JValue : Type where
  | jstr (s : String)
  | jlist (xs : List JValue)
  | jobj (fields : List (String × JValue))
  | jnull

mutual

/-- Decidable equality on JSON values (hand-written: the deriving handler
does not support this nested inductive). -/
def JValue.decEq : (a b : JValue) → Decidable (a = b)
  | .jstr a, .jstr b =>
      if h : a = b then .isTrue (congrArg JValue.jstr h)
      else .isFalse (fun hc => h (JValue.jstr.inj hc))
  | .jstr _, .jlist _ => .isFalse (fun hc => JValue.noConfusion hc)
  | .jstr _, .jobj _ => .isFalse (fun hc => JValue.noConfusion hc)
  | .jstr _, .jnull => .isFalse (fun hc => JValue.noConfusion hc)
  | .jlist _, .jstr _ => .isFalse (fun hc => JValue.noConfusion hc)
  | .jlist xs, .jlist ys =>
      match JValue.decEqList xs ys with
      | .isTrue h => .isTrue (congrArg JValue.jlist h)
      | .isFalse h => .isFalse (fun hc => h (JValue.jlist.inj hc))
  | .jlist _, .jobj _ => .isFalse (fun hc => JValue.noConfusion hc)
  | .jlist _, .jnull => .isFalse (fun hc => JValue.noConfusion hc)
  | .jobj _, .jstr _ => .isFalse (fun hc => JValue.noConfusion hc)
  | .jobj _, .jlist _ => .isFalse (fun hc => JValue.noConfusion hc)
  | .jobj fs, .jobj gs =>
      match JValue.decEqFields fs gs with
      | .isTrue h => .isTrue (congrArg JValue.jobj h)
      | .isFalse h => .isFalse (fun hc => h (JValue.jobj.inj hc))
  | .jobj _, .jnull => .isFalse (fun hc => JValue.noConfusion hc)
  | .jnull, .jstr _ => .isFalse (fun hc => JValue.noConfusion hc)
  | .jnull, .jlist _ => .isFalse (fun hc => JValue.noConfusion hc)
  | .jnull, .jobj _ => .isFalse (fun hc => JValue.noConfusion hc)
  | .jnull, .jnull => .isTrue rfl

def JValue.decEqList : (xs ys : List JValue) → Decidable (xs = ys)
  | [], [] => .isTrue rfl
  | [], _ :: _ => .isFalse (fun hc => List.noConfusion hc)
  | _ :: _, [] => .isFalse (fun hc => List.noConfusion hc)
  | x :: xs, y :: ys =>
      match JValue.decEq x y, JValue.decEqList xs ys with
      | .isTrue h1, .isTrue h2 => .isTrue (by rw [h1, h2])
      | .isFalse h1, _ => .isFalse (fun hc => h1 (List.cons.inj hc).1)
      | _, .isFalse h2 => .isFalse (fun hc => h2 (List.cons.inj hc).2)

def JValue.decEqFields : (xs ys : List (String × JValue)) → Decidable (xs = ys)
  | [], [] => .isTrue rfl
  | [], _ :: _ => .isFalse (fun hc => List.noConfusion hc)
  | _ :: _, [] => .isFalse (fun hc => List.noConfusion hc)
  | (k, v) :: xs, (l, w) :: ys =>
      if hk : k = l then
        match JValue.decEq v w, JValue.decEqFields xs ys with
        | .isTrue h1, .isTrue h2 => .isTrue (by rw [hk, h1, h2])
        | .isFalse h1, _ => .isFalse (fun hc => h1 (congrArg Prod.snd (List.cons.inj hc).1))
        | _, .isFalse h2 => .isFalse (fun hc => h2 (List.cons.inj hc).2)
      else .isFalse (fun hc => hk (congrArg Prod.fst (List.cons.inj hc).1))

end

instance : DecidableEq JValue := JValue.decEq

/-- A Python dict parsed from a JSON object. -/
abbrev Obj : Type := List (String × JValue)

/-- First-match association-list lookup (Python `dict.__getitem__` /
`dict.get` on a dict with unique keys). -/
def alookup {α β : Type} [DecidableEq α] : List (α × β) → α → Option β
  | [], _ => none
  | (a, b) :: rest, key => if a = key then some b else alookup rest key

/-- Python `obj.get(k)`: the value at key `k`, or `None` when absent. -/
def jget (o : Obj) (k : String) : Option JValue :=
  alookup o k

/-- Python `obj.get(k, d)`: the value at key `k`, or the default `d` when
the key is absent (presence-based, not truthiness-based). -/
def jgetD (o : Obj) (k : String) (d : JValue) : JValue :=
  (jget o k).getD d

/-- Python truthiness of a JSON value. -/
def truthy : JValue → Bool
  | .jstr s => s ≠ ""
  | .jlist xs => !xs.isEmpty
  | .jobj fs => !fs.isEmpty
  | .jnull => false

/-- Python truthiness of an `obj.get` result (`None` is falsy). -/
def otruthy : Option JValue → Bool
  | none => false
  | some v => truthy v

/-- Python iteration over a JSON value: a list yields its elements, a
string its characters, a dict its keys.  `None` is not iterable (a
`TypeError` in Python); it is mapped to the empty iteration, a path no
well-formed input reaches. -/
def pyIter : JValue → List JValue
  | .jlist xs => xs
  | .jstr s => s.data.map (fun c => .jstr (String.singleton c))
  | .jobj fs => fs.map (fun p => .jstr p.1)
  | .jnull => []

/-- Python `dict[k] = v`: overwrite in place when the key exists
(preserving insertion order), else append. -/
def setKey (o : Obj) (k : String) (v : JValue) : Obj :=
  if (alookup o k).isSome then
    o.map (fun p => if p.1 = k then (k, v) else p)
  else o ++ [(k, v)]

/-- Python `dict.update`: set every key of `new` in `o`, left to right. -/
def updObj (o : Obj) : Obj → Obj
  | [] => o
  | (k, v) :: rest => updObj (setKey o k v) rest

/-- The networkx directed graph: insertion-ordered nodes (key ↦ attribute
dict) and edges ((source, target) ↦ attribute dict). -/
structure DiGraph : Type where
  nodes : List (JValue × Obj)
  edges : List ((JValue × JValue) × Obj)
  deriving DecidableEq

/-- The empty graph, `nx.DiGraph()`. -/
def DiGraph.empty : DiGraph := ⟨[], []⟩

/-- networkx `G.add_node(key, **attrs)`: create the node with the given
attributes, or merge the attributes into an existing node's dict. -/
def addNode (G : DiGraph) (key : JValue) (attrs : Obj) : DiGraph :=
  if (alookup G.nodes key).isSome then
    { G with nodes := G.nodes.map (fun p => if p.1 = key then (p.1, updObj p.2 attrs) else p) }
  else
    { G with nodes := G.nodes ++ [(key, attrs)] }

/-- networkx: an endpoint of `add_edge` not yet in the graph is added as a
node with an empty attribute dict. -/
def ensureNode (G : DiGraph) (key : JValue) : DiGraph :=
  if (alookup G.nodes key).isSome then G
  else { G with nodes := G.nodes ++ [(key, [])] }

/-- The edge upsert of `add_edge`: create the edge or merge attributes
into an existing edge's dict. -/
def upsertEdge (G : DiGraph) (u v : JValue) (attrs : Obj) : DiGraph :=
  if (alookup G.edges (u, v)).isSome then
    { G with edges := G.edges.map (fun p => if p.1 = (u, v) then (p.1, updObj p.2 attrs) else p) }
  else
    { G with edges := G.edges ++ [((u, v), attrs)] }

/-- networkx `G.add_edge(u, v, **attrs)`: add missing endpoints as nodes,
then upsert the edge. -/
def addEdge (G : DiGraph) (u v : JValue) (attrs : Obj) : DiGraph :=
  upsertEdge (ensureNode (ensureNode G u) v) u v attrs

/-- The four recognized `type` tags of `build_knowledge_graph`. -/
def recognizedTypes : List (Option JValue) :=
  [some (.jstr "attack-pattern"), some (.jstr "malware"),
   some (.jstr "tool"), some (.jstr "relationship")]

/-- The identity key of an object:
`obj.get("id", obj.get("external_id", "unknown"))`. -/
def identityKey (o : Obj) : JValue :=
  jgetD o "id" (jgetD o "external_id" (.jstr "unknown"))

/-- The display label of an object:
`obj.get("name", obj.get("id", "Unnamed"))`. -/
def displayLabel (o : Obj) : JValue :=
  jgetD o "name" (jgetD o "id" (.jstr "Unnamed"))

/-- The body of `build_knowledge_graph`'s inner loop for one object: a
node is added for every object of a recognized type (including
relationships), then a relationship with truthy `source_ref` and
`target_ref` also adds an edge. -/
def processObj (G : DiGraph) (o : Obj) : DiGraph :=
  if jget o "type" ∈ recognizedTypes then
    let G1 := addNode G (identityKey o)
      [("label", displayLabel o), ("type", jgetD o "type" .jnull)]
    if jget o "type" = some (.jstr "relationship") then
      let src := jget o "source_ref"
      let tgt := jget o "target_ref"
      let relType := jgetD o "relationship_type" (.jstr "related-to")
      if otruthy src && otruthy tgt then
        addEdge G1 (src.getD .jnull) (tgt.getD .jnull) [("relationship", relType)]
      else G1
    else G1
  else G

/-- One element of a document's `objects` sequence; a non-dict element
raises `AttributeError` in Python and is modelled as a no-op. -/
def processVal (G : DiGraph) : JValue → DiGraph
  | .jobj o => processObj G o
  | _ => G

/-- One parsed document: when `"objects" in entry`, fold the inner loop
over `entry["objects"]`. -/
def processEntry (G : DiGraph) (entry : Obj) : DiGraph :=
  match jget entry "objects" with
  | some v => (pyIter v).foldl processVal G
  | none => G

/-- `build_knowledge_graph(data)` from `mitrejson.py`. -/
def build_knowledge_graph (data : List Obj) : DiGraph :=
  data.foldl processEntry DiGraph.empty

-- Scratch checks of the concrete spec scenario (to be removed).
def scenarioDoc : Obj :=
  [("objects", .jlist
    [.jobj [("type", .jstr "attack-pattern"), ("id", .jstr "T1"), ("name", .jstr "Phishing")],
     .jobj [("type", .jstr "attack-pattern"), ("id", .jstr "T2"), ("name", .jstr "Exploitation")],
     .jobj [("type", .jstr "relationship"), ("source_ref", .jstr "T1"),
            ("target_ref", .jstr "T2"), ("relationship_type", .jstr "uses")]])]

/-- The node keys of a graph, in enumeration (first-insertion) order. -/
def nodeKeys (G : DiGraph) : List JValue := G.nodes.map (·.1)

/-- The edge key pairs of a graph, in insertion order. -/
def edgeKeys (G : DiGraph) : List (JValue × JValue) := G.edges.map (·.1)

/-- Append an element unless it is already present (how upserts extend the
key enumeration). -/
def insertNew {α : Type} [DecidableEq α] (l : List α) (k : α) : List α :=
  if k ∈ l then l else l ++ [k]

/-- All node keys one object contributes: its identity key when its type
is recognized, plus the two endpoint references when it is a relationship
with truthy `source_ref` and `target_ref`. -/
def objKeys (o : Obj) : List JValue :=
  if jget o "type" ∈ recognizedTypes then
    identityKey o ::
      (if jget o "type" = some (.jstr "relationship") then
        if otruthy (jget o "source_ref") && otruthy (jget o "target_ref") then
          [(jget o "source_ref").getD .jnull, (jget o "target_ref").getD .jnull]
        else []
      else [])
  else []

/-- Node keys contributed by one element of an `objects` sequence. -/
def valKeys : JValue → List JValue
  | .jobj o => objKeys o
  | _ => []

/-- Node keys contributed by one parsed document. -/
def entryKeys (entry : Obj) : List JValue :=
  match jget entry "objects" with
  | some v => (pyIter v).flatMap valKeys
  | none => []

/-- Node keys contributed by a whole input document sequence. -/
def dataKeys (data : List Obj) : List JValue :=
  data.flatMap entryKeys

lemma alookup_isSome {α β : Type} [DecidableEq α] (l : List (α × β)) (k : α) :
    (alookup l k).isSome = true ↔ k ∈ l.map (·.1) := by
  induction l with
  | nil => simp [alookup]
  | cons p rest ih =>
    by_cases h : p.1 = k
    · obtain ⟨a, b⟩ := p
      simp_all [alookup]
    · obtain ⟨a, b⟩ := p
      simp only [alookup, List.map_cons, List.mem_cons] at *
      simp only [h, if_false, ih]
      constructor
      · exact fun hm => Or.inr hm
      · rintro (hm | hm)
        · exact absurd hm.symm h
        · exact hm

lemma map_fst_map_upd {α β : Type} (l : List (α × β)) (f : α × β → α × β)
    (hf : ∀ p, (f p).1 = p.1) :
    (l.map f).map (·.1) = l.map (·.1) := by
  induction l with
  | nil => rfl
  | cons p rest ih => simp [hf, ih]

lemma alookup_nodes_isSome (G : DiGraph) (k : JValue) :
    (alookup G.nodes k).isSome = true ↔ k ∈ nodeKeys G :=
  alookup_isSome G.nodes k

lemma nodeKeys_addNode (G : DiGraph) (k : JValue) (attrs : Obj) :
    nodeKeys (addNode G k attrs) = insertNew (nodeKeys G) k := by
  unfold addNode insertNew
  by_cases h : (alookup G.nodes k).isSome = true
  · rw [if_pos h, if_pos ((alookup_nodes_isSome G k).mp h)]
    exact map_fst_map_upd G.nodes _ (fun p => by by_cases hp : p.1 = k <;> simp [hp])
  · rw [if_neg h, if_neg (fun hm => h ((alookup_nodes_isSome G k).mpr hm))]
    simp [nodeKeys]

lemma nodeKeys_ensureNode (G : DiGraph) (k : JValue) :
    nodeKeys (ensureNode G k) = insertNew (nodeKeys G) k := by
  unfold ensureNode insertNew
  by_cases h : (alookup G.nodes k).isSome = true
  · rw [if_pos h, if_pos ((alookup_nodes_isSome G k).mp h)]
  · rw [if_neg h, if_neg (fun hm => h ((alookup_nodes_isSome G k).mpr hm))]
    simp [nodeKeys]

lemma nodeKeys_upsertEdge (G : DiGraph) (u v : JValue) (attrs : Obj) :
    nodeKeys (upsertEdge G u v attrs) = nodeKeys G := by
  unfold upsertEdge
  by_cases h : (alookup G.edges (u, v)).isSome = true <;> simp [h, nodeKeys]

lemma nodeKeys_addEdge (G : DiGraph) (u v : JValue) (attrs : Obj) :
    nodeKeys (addEdge G u v attrs) = insertNew (insertNew (nodeKeys G) u) v := by
  unfold addEdge
  rw [nodeKeys_upsertEdge, nodeKeys_ensureNode, nodeKeys_ensureNode]

lemma nodeKeys_processObj (G : DiGraph) (o : Obj) :
    nodeKeys (processObj G o) = (objKeys o).foldl insertNew (nodeKeys G) := by
  unfold processObj objKeys
  by_cases hrec : jget o "type" ∈ recognizedTypes
  · rw [if_pos hrec, if_pos hrec]
    by_cases hrel : jget o "type" = some (.jstr "relationship")
    · rw [if_pos hrel, if_pos hrel]
      by_cases htr : (otruthy (jget o "source_ref") && otruthy (jget o "target_ref")) = true
      · rw [if_pos htr, if_pos htr]
        simp [nodeKeys_addEdge, nodeKeys_addNode]
      · rw [if_neg htr, if_neg htr]
        simp [nodeKeys_addNode]
    · rw [if_neg hrel, if_neg hrel]
      simp [nodeKeys_addNode]
  · rw [if_neg hrec, if_neg hrec]
    rfl

lemma nodeKeys_processVal (G : DiGraph) (v : JValue) :
    nodeKeys (processVal G v) = (valKeys v).foldl insertNew (nodeKeys G) := by
  cases v <;> simp [processVal, valKeys, nodeKeys_processObj]

lemma nodeKeys_foldl_processVal (xs : List JValue) (G : DiGraph) :
    nodeKeys (xs.foldl processVal G) = (xs.flatMap valKeys).foldl insertNew (nodeKeys G) := by
  induction xs generalizing G with
  | nil => rfl
  | cons x rest ih =>
    simp only [List.foldl_cons, List.flatMap_cons, List.foldl_append, ih, nodeKeys_processVal]

lemma nodeKeys_processEntry (G : DiGraph) (entry : Obj) :
    nodeKeys (processEntry G entry) = (entryKeys entry).foldl insertNew (nodeKeys G) := by
  unfold processEntry entryKeys
  cases jget entry "objects" with
  | none => rfl
  | some v => exact nodeKeys_foldl_processVal (pyIter v) G

lemma nodeKeys_build (data : List Obj) :
    nodeKeys (build_knowledge_graph data) = (dataKeys data).foldl insertNew [] := by
  unfold build_knowledge_graph dataKeys
  have main : ∀ (ds : List Obj) (G : DiGraph),
      nodeKeys (ds.foldl processEntry G) = (ds.flatMap entryKeys).foldl insertNew (nodeKeys G) := by
    intro ds
    induction ds with
    | nil => intro G; rfl
    | cons d rest ih =>
      intro G
      simp only [List.foldl_cons, List.flatMap_cons, List.foldl_append, ih, nodeKeys_processEntry]
  exact main data DiGraph.empty

lemma mem_insertNew {α : Type} [DecidableEq α] (l : List α) (k x : α) :
    x ∈ insertNew l k ↔ x ∈ l ∨ x = k := by
  unfold insertNew
  by_cases h : k ∈ l
  · simp only [if_pos h]
    constructor
    · exact Or.inl
    · rintro (hx | hx)
      · exact hx
      · exact hx ▸ h
  · simp [if_neg h]

lemma nodup_insertNew {α : Type} [DecidableEq α] (l : List α) (k : α) (h : l.Nodup) :
    (insertNew l k).Nodup := by
  unfold insertNew
  by_cases hk : k ∈ l
  · simpa [hk] using h
  · simp [hk, h, List.nodup_append, List.disjoint_singleton]

lemma foldl_insertNew_nodup {α : Type} [DecidableEq α] (xs : List α) (s : List α)
    (h : s.Nodup) : (xs.foldl insertNew s).Nodup := by
  induction xs generalizing s with
  | nil => exact h
  | cons x rest ih => exact ih _ (nodup_insertNew s x h)

lemma mem_foldl_insertNew {α : Type} [DecidableEq α] (xs : List α) (s : List α) (y : α) :
    y ∈ xs.foldl insertNew s ↔ y ∈ s ∨ y ∈ xs := by
  induction xs generalizing s with
  | nil => simp
  | cons x rest ih =>
    simp only [List.foldl_cons, ih, mem_insertNew, List.mem_cons]
    tauto

lemma edgeKeys_addNode (G : DiGraph) (k : JValue) (attrs : Obj) :
    edgeKeys (addNode G k attrs) = edgeKeys G := by
  unfold addNode
  by_cases h : (alookup G.nodes k).isSome = true <;> simp [h, edgeKeys]

lemma edgeKeys_ensureNode (G : DiGraph) (k : JValue) :
    edgeKeys (ensureNode G k) = edgeKeys G := by
  unfold ensureNode
  by_cases h : (alookup G.nodes k).isSome = true <;> simp [h, edgeKeys]

lemma alookup_edges_isSome (G : DiGraph) (p : JValue × JValue) :
    (alookup G.edges p).isSome = true ↔ p ∈ edgeKeys G :=
  alookup_isSome G.edges p

lemma ensureNode_edges (G : DiGraph) (k : JValue) : (ensureNode G k).edges = G.edges := by
  unfold ensureNode
  by_cases h : (alookup G.nodes k).isSome = true <;> simp [h]

lemma edgeKeys_upsertEdge (G : DiGraph) (u v : JValue) (attrs : Obj) :
    edgeKeys (upsertEdge G u v attrs) = insertNew (edgeKeys G) (u, v) := by
  unfold upsertEdge insertNew
  by_cases h : (alookup G.edges (u, v)).isSome = true
  · rw [if_pos h, if_pos ((alookup_edges_isSome G (u, v)).mp h)]
    exact map_fst_map_upd G.edges _ (fun p => by by_cases hp : p.1 = (u, v) <;> simp [hp])
  · rw [if_neg h, if_neg (fun hm => h ((alookup_edges_isSome G (u, v)).mpr hm))]
    simp [edgeKeys]

lemma edgeKeys_addEdge (G : DiGraph) (u v : JValue) (attrs : Obj) :
    edgeKeys (addEdge G u v attrs) = insertNew (edgeKeys G) (u, v) := by
  unfold addEdge
  rw [edgeKeys_upsertEdge]
  have : edgeKeys (ensureNode (ensureNode G u) v) = edgeKeys G := by
    unfold edgeKeys
    rw [ensureNode_edges, ensureNode_edges]
  rw [this]

/-- Referential closure: every edge's endpoints are node keys. -/
def edgesClosed (G : DiGraph) : Prop :=
  ∀ p ∈ edgeKeys G, p.1 ∈ nodeKeys G ∧ p.2 ∈ nodeKeys G

lemma edgesClosed_processObj (G : DiGraph) (o : Obj) (hG : edgesClosed G) :
    edgesClosed (processObj G o) := by
  unfold processObj
  by_cases hrec : jget o "type" ∈ recognizedTypes
  · rw [if_pos hrec]
    have hAdd : edgesClosed (addNode G (identityKey o)
        [("label", displayLabel o), ("type", jgetD o "type" .jnull)]) := by
      intro p hp
      rw [edgeKeys_addNode] at hp
      rw [nodeKeys_addNode]
      exact ⟨(mem_insertNew _ _ _).mpr (Or.inl (hG p hp).1),
             (mem_insertNew _ _ _).mpr (Or.inl (hG p hp).2)⟩
    by_cases hrel : jget o "type" = some (.jstr "relationship")
    · rw [if_pos hrel]
      by_cases htr : (otruthy (jget o "source_ref") && otruthy (jget o "target_ref")) = true
      · rw [if_pos htr]
        intro p hp
        rw [edgeKeys_addEdge] at hp
        rw [nodeKeys_addEdge]
        rcases (mem_insertNew _ _ _).mp hp with hin | heq
        · exact ⟨(mem_insertNew _ _ _).mpr (Or.inl ((mem_insertNew _ _ _).mpr
              (Or.inl (hAdd p hin).1))),
            (mem_insertNew _ _ _).mpr (Or.inl ((mem_insertNew _ _ _).mpr
              (Or.inl (hAdd p hin).2)))⟩
        · subst heq
          exact ⟨(mem_insertNew _ _ _).mpr (Or.inl ((mem_insertNew _ _ _).mpr (Or.inr rfl))),
                 (mem_insertNew _ _ _).mpr (Or.inr rfl)⟩
      · rw [if_neg htr]; exact hAdd
    · rw [if_neg hrel]; exact hAdd
  · rw [if_neg hrec]; exact hG

lemma edgesClosed_processVal (G : DiGraph) (v : JValue) (hG : edgesClosed G) :
    edgesClosed (processVal G v) := by
  cases v <;> simp [processVal] <;> first
    | exact hG
    | exact edgesClosed_processObj G _ hG

lemma edgesClosed_processEntry (G : DiGraph) (entry : Obj) (hG : edgesClosed G) :
    edgesClosed (processEntry G entry) := by
  unfold processEntry
  cases jget entry "objects" with
  | none => exact hG
  | some v =>
    have main : ∀ (xs : List JValue) (G : DiGraph), edgesClosed G →
        edgesClosed (xs.foldl processVal G) := by
      intro xs
      induction xs with
      | nil => intro G hG2; exact hG2
      | cons x rest ih =>
        intro G hG2
        exact ih _ (edgesClosed_processVal G x hG2)
    exact main (pyIter v) G hG

lemma edgesClosed_build (data : List Obj) : edgesClosed (build_knowledge_graph data) := by
  unfold build_knowledge_graph
  have main : ∀ (ds : List Obj) (G : DiGraph), edgesClosed G →
      edgesClosed (ds.foldl processEntry G) := by
    intro ds
    induction ds with
    | nil => intro G hG; exact hG
    | cons d rest ih =>
      intro G hG
      exact ih _ (edgesClosed_processEntry G d hG)
  exact main data DiGraph.empty (fun p hp => absurd hp (by simp [edgeKeys, DiGraph.empty]))

/-- The concrete scenario from the spec: two techniques and one
relationship, in one document. -/
def scenarioGraph : DiGraph := build_knowledge_graph [scenarioDoc]

/-- A document holding a single relationship object whose endpoint
references name keys that no node-producing object carries. -/
def danglingDoc : Obj :=
  [("objects", .jlist
    [.jobj [("type", .jstr "relationship"), ("id", .jstr "R1"),
            ("source_ref", .jstr "A"), ("target_ref", .jstr "B"),
            ("relationship_type", .jstr "mitigates")]])]

/-- C2 counterexample: on the spec's own concrete input the graph has 3
nodes, not 2 — the relationship object (no `id`, no `external_id`)
becomes the node "unknown", labelled "Unnamed" and typed "relationship". -/
theorem relationship_becomes_node_counterexample :
    scenarioGraph.nodes.length = 3
    ∧ JValue.jstr "unknown" ∈ nodeKeys scenarioGraph
    ∧ alookup scenarioGraph.nodes (.jstr "unknown")
        = some [("label", .jstr "Unnamed"), ("type", .jstr "relationship")] := by
  decide

/-- C2 (amended): every object of type attack-pattern, malware, tool, OR
relationship produces a node, so the node count equals the number of
distinct keys among identity keys of recognized objects plus endpoint
references of emitted edges; the concrete scenario yields 3 nodes
("T1", "T2", "unknown") and 1 edge T1→T2 labelled "uses". -/
theorem build_node_count_amended (data : List Obj) :
    (build_knowledge_graph data).nodes.length = (dataKeys data).toFinset.card
    ∧ nodeKeys scenarioGraph = [.jstr "T1", .jstr "T2", .jstr "unknown"]
    ∧ scenarioGraph.edges = [((.jstr "T1", .jstr "T2"), [("relationship", .jstr "uses")])] := by
  refine ⟨?_, by decide, by decide⟩
  have h1 : nodeKeys (build_knowledge_graph data) = (dataKeys data).foldl insertNew [] :=
    nodeKeys_build data
  have hnodup : (nodeKeys (build_knowledge_graph data)).Nodup := by
    rw [h1]; exact foldl_insertNew_nodup _ _ List.nodup_nil
  have hlen : (build_knowledge_graph data).nodes.length
      = (nodeKeys (build_knowledge_graph data)).length := by
    simp [nodeKeys]
  rw [hlen, ← List.toFinset_card_of_nodup hnodup]
  congr 1
  ext x
  simp [List.mem_toFinset, h1, mem_foldl_insertNew]

/-- C3 counterexample: building from a single relationship object whose
`source_ref` "A" names no node-producing object still creates node "A"
(with an empty attribute dict): endpoint keys DO implicitly create
nodes. -/
theorem dangling_endpoint_creates_node_counterexample :
    JValue.jstr "A" ∈ nodeKeys (build_knowledge_graph [danglingDoc])
    ∧ alookup (build_knowledge_graph [danglingDoc]).nodes (.jstr "A") = some []
    ∧ nodeKeys (build_knowledge_graph [danglingDoc])
        = [.jstr "R1", .jstr "A", .jstr "B"] := by
  decide

/-- C3 (amended): upserting an edge implicitly creates an attribute-less
node for any endpoint key not already present (networkx add_edge
semantics); consequently every edge endpoint of a built graph is a node
key and dangling references cannot occur. -/
theorem edge_endpoints_are_nodes_amended (data : List Obj) (p : JValue × JValue)
    (hp : p ∈ edgeKeys (build_knowledge_graph data)) :
    p.1 ∈ nodeKeys (build_knowledge_graph data)
    ∧ p.2 ∈ nodeKeys (build_knowledge_graph data) :=
  edgesClosed_build data p hp

/-- Witness for the C3 amended theorem at the dangling-reference input. -/
theorem edge_endpoints_are_nodes_witness :
    JValue.jstr "A" ∈ nodeKeys (build_knowledge_graph [danglingDoc])
    ∧ JValue.jstr "B" ∈ nodeKeys (build_knowledge_graph [danglingDoc]) :=
  edge_endpoints_are_nodes_amended [danglingDoc] (.jstr "A", .jstr "B") (by decide)

lemma alookup_map_upd {α β : Type} [DecidableEq α] (l : List (α × β)) (k : α) (g : β → β) :
    alookup (l.map (fun p => if p.1 = k then (p.1, g p.2) else p)) k
      = (alookup l k).map g := by
  induction l with
  | nil => rfl
  | cons p rest ih =>
    obtain ⟨a, b⟩ := p
    rw [List.map_cons]
    by_cases h : a = k
    · subst h
      rw [show (if (a, b).1 = a then ((a, b).1, g (a, b).2) else (a, b)) = (a, g b) by simp]
      simp [alookup]
    · rw [show (if (a, b).1 = k then ((a, b).1, g (a, b).2) else (a, b)) = (a, b) by simp [h]]
      simp [alookup, h, ih]

lemma alookup_append_of_none {α β : Type} [DecidableEq α] (l : List (α × β)) (k : α) (b : β)
    (h : alookup l k = none) : alookup (l ++ [(k, b)]) k = some b := by
  induction l with
  | nil => simp [alookup]
  | cons p rest ih =>
    obtain ⟨a, bv⟩ := p
    by_cases hp : a = k
    · subst hp
      simp [alookup] at h
    · simp [alookup, hp] at h ⊢
      exact ih h

lemma alookup_addNode_self (G : DiGraph) (k : JValue) (attrs : Obj) :
    alookup (addNode G k attrs).nodes k
      = some ((alookup G.nodes k).elim attrs (fun b => updObj b attrs)) := by
  unfold addNode
  cases hb : alookup G.nodes k with
  | some b =>
    rw [if_pos (show (some b : Option Obj).isSome = true from rfl)]
    show alookup (G.nodes.map _) k = _
    rw [alookup_map_upd G.nodes k (fun b => updObj b attrs), hb]
    rfl
  | none =>
    rw [if_neg (show ¬(none : Option Obj).isSome = true by simp)]
    show alookup (G.nodes ++ [(k, attrs)]) k = _
    rw [alookup_append_of_none G.nodes k attrs hb]
    rfl

lemma alookup_map_setKey_self {α β : Type} [DecidableEq α] (l : List (α × β)) (k : α) (v : β)
    (hb : (alookup l k).isSome = true) :
    alookup (l.map (fun p => if p.1 = k then (k, v) else p)) k = some v := by
  induction l with
  | nil => simp [alookup] at hb
  | cons p rest ih =>
    obtain ⟨a, b⟩ := p
    rw [List.map_cons]
    by_cases ha : a = k
    · subst ha
      rw [show (if (a, b).1 = a then (a, v) else (a, b)) = (a, v) by simp]
      simp [alookup]
    · rw [show (if (a, b).1 = k then (k, v) else (a, b)) = (a, b) by simp [ha]]
      simp [alookup, ha] at hb ⊢
      exact ih hb

lemma alookup_map_setKey_other {α β : Type} [DecidableEq α] (l : List (α × β)) (k k2 : α)
    (v : β) (h : k2 ≠ k) :
    alookup (l.map (fun p => if p.1 = k then (k, v) else p)) k2 = alookup l k2 := by
  induction l with
  | nil => rfl
  | cons p rest ih =>
    obtain ⟨a, b⟩ := p
    rw [List.map_cons]
    by_cases ha : a = k
    · subst ha
      rw [show (if (a, b).1 = a then (a, v) else (a, b)) = (a, v) by simp]
      simp [alookup, Ne.symm h, ih]
    · rw [show (if (a, b).1 = k then (k, v) else (a, b)) = (a, b) by simp [ha]]
      by_cases ha2 : a = k2
      · subst ha2
        simp [alookup]
      · simp [alookup, ha2, ih]

lemma alookup_append_single_other {α β : Type} [DecidableEq α] (l : List (α × β)) (k k2 : α)
    (v : β) (h : k2 ≠ k) :
    alookup (l ++ [(k, v)]) k2 = alookup l k2 := by
  induction l with
  | nil => simp [alookup, Ne.symm h]
  | cons p rest ih =>
    obtain ⟨a, b⟩ := p
    by_cases ha : a = k2
    · subst ha
      simp [alookup]
    · simp [alookup, ha, ih]

lemma alookup_setKey_self (o : Obj) (k : String) (v : JValue) :
    alookup (setKey o k v) k = some v := by
  unfold setKey
  by_cases hb : (alookup o k).isSome = true
  · rw [if_pos hb]
    exact alookup_map_setKey_self o k v hb
  · rw [if_neg hb]
    exact alookup_append_of_none o k v (Option.not_isSome_iff_eq_none.mp hb)

lemma alookup_setKey_other (o : Obj) (k k2 : String) (v : JValue) (h : k2 ≠ k) :
    alookup (setKey o k v) k2 = alookup o k2 := by
  unfold setKey
  by_cases hb : (alookup o k).isSome = true
  · rw [if_pos hb]
    exact alookup_map_setKey_other o k k2 v h
  · rw [if_neg hb]
    exact alookup_append_single_other o k k2 v h

lemma jget_upd_label (b : Obj) (L T : JValue) :
    jget (updObj b [("label", L), ("type", T)]) "label" = some L := by
  show alookup (setKey (setKey b "label" L) "type" T) "label" = some L
  rw [alookup_setKey_other _ _ _ _ (by decide), alookup_setKey_self]

lemma jget_upd_type (b : Obj) (L T : JValue) :
    jget (updObj b [("label", L), ("type", T)]) "type" = some T := by
  show alookup (setKey (setKey b "label" L) "type" T) "type" = some T
  rw [alookup_setKey_self]

/-- C4: for every processed object of a node-producing type
(attack-pattern, malware, or tool), the node is stored under the key
`id` if present, else `external_id` if present, else "unknown", and its
label attribute is `name` if present, else `id`, else "Unnamed". -/
theorem node_key_label_fallbacks (G : DiGraph) (o : Obj)
    (h : jget o "type" = some (.jstr "attack-pattern")
       ∨ jget o "type" = some (.jstr "malware")
       ∨ jget o "type" = some (.jstr "tool")) :
    ∃ attrs,
      alookup (processObj G o).nodes
        (match jget o "id" with
         | some v => v
         | none =>
           match jget o "external_id" with
           | some w => w
           | none => .jstr "unknown") = some attrs
      ∧ jget attrs "label"
          = some (match jget o "name" with
                  | some v => v
                  | none =>
                    match jget o "id" with
                    | some w => w
                    | none => .jstr "Unnamed") := by
  have hkey : (match jget o "id" with
      | some v => v
      | none =>
        match jget o "external_id" with
        | some w => w
        | none => JValue.jstr "unknown") = identityKey o := by
    unfold identityKey jgetD
    cases jget o "id" <;> cases jget o "external_id" <;> rfl
  have hlab : (match jget o "name" with
      | some v => v
      | none =>
        match jget o "id" with
        | some w => w
        | none => JValue.jstr "Unnamed") = displayLabel o := by
    unfold displayLabel jgetD
    cases jget o "name" <;> cases jget o "id" <;> rfl
  rw [hkey, hlab]
  have hrec : jget o "type" ∈ recognizedTypes := by
    unfold recognizedTypes
    rcases h with h | h | h <;> simp [h]
  have hnotrel : ¬ jget o "type" = some (.jstr "relationship") := by
    intro hc
    rcases h with h | h | h <;> rw [h] at hc <;> exact absurd hc (by decide)
  have hstep : processObj G o
      = addNode G (identityKey o) [("label", displayLabel o), ("type", jgetD o "type" .jnull)] := by
    unfold processObj
    rw [if_pos hrec, if_neg hnotrel]
  rw [hstep]
  refine ⟨_, alookup_addNode_self G (identityKey o) _, ?_⟩
  cases alookup G.nodes (identityKey o) with
  | none => rfl
  | some b => exact jget_upd_label b _ _

/-- An object carrying neither `id` nor `external_id`, exercising both
fallback chains. -/
def idlessObj : Obj := [("type", .jstr "malware"), ("name", .jstr "Emotet")]

/-- Witness for the fallback-chain theorem: `idlessObj` lands under key
"unknown" with its `name` as label. -/
theorem node_key_label_fallbacks_witness :
    ∃ attrs,
      alookup (processObj DiGraph.empty idlessObj).nodes (.jstr "unknown") = some attrs
      ∧ jget attrs "label" = some (.jstr "Emotet") :=
  node_key_label_fallbacks DiGraph.empty idlessObj (by decide)

/-- C7: building twice from the same input document sequence yields
identical node and edge sets; the builder is a function of its input
alone (the embedding is pure, mirroring that the Python function only
reads `data` and writes a fresh local graph). -/
theorem build_deterministic (d1 d2 : List Obj) (h : d1 = d2) :
    (build_knowledge_graph d1).nodes = (build_knowledge_graph d2).nodes
    ∧ (build_knowledge_graph d1).edges = (build_knowledge_graph d2).edges := by
  subst h
  exact ⟨rfl, rfl⟩

/-- Witness: the concrete scenario built twice. -/
theorem build_deterministic_witness :
    (build_knowledge_graph [scenarioDoc]).nodes = (build_knowledge_graph [scenarioDoc]).nodes
    ∧ (build_knowledge_graph [scenarioDoc]).edges = (build_knowledge_graph [scenarioDoc]).edges :=
  build_deterministic [scenarioDoc] [scenarioDoc] rfl

/-- Decidable equality for `Except` (not provided by this toolchain). -/
def exceptDecEq {ε α : Type} [DecidableEq ε] [DecidableEq α] :
    (a b : Except ε α) → Decidable (a = b)
  | .error a, .error b =>
      if h : a = b then .isTrue (by rw [h]) else .isFalse (fun hc => h (Except.error.inj hc))
  | .error _, .ok _ => .isFalse (fun hc => Except.noConfusion hc)
  | .ok _, .error _ => .isFalse (fun hc => Except.noConfusion hc)
  | .ok a, .ok b =>
      if h : a = b then .isTrue (by rw [h]) else .isFalse (fun hc => h (Except.ok.inj hc))

instance {ε α : Type} [DecidableEq ε] [DecidableEq α] : DecidableEq (Except ε α) :=
  exceptDecEq

/-- The filesystem as seen by `load_json_files`.  `readFile` models
`open(file, "r", encoding="utf-8")` together with decoding the stream:
`.ok` is the decoded text, `.error` an uncaught exception — the
`FileNotFoundError`/`IsADirectoryError` of `open()` or the
`UnicodeDecodeError` raised on non-UTF-8 bytes, none of which the
source catches. -/
structure FileSys : Type where
  isDir : String → Bool
  listdir : String → List String
  readFile : String → Except String String

/-- `os.path.join(path, file)` for a listing entry. -/
def joinPath (dir file : String) : String := dir ++ "/" ++ file

/-- `file.endswith(".json")`, character-wise (structural, in place of
the byte-position arithmetic of the library routine). -/
def strEndsWith (s suffix : String) : Bool := suffix.data.isSuffixOf s.data

/-- The candidate files of `load_json_files`: every listing entry ending
in ".json" when the path is a directory, the path itself when it ends in
".json" (no existence check), nothing otherwise. -/
def jsonCandidates (fs : FileSys) (path : String) : List String :=
  if fs.isDir path then
    ((fs.listdir path).filter (fun f => strEndsWith f ".json")).map (joinPath path)
  else if strEndsWith path ".json" then [path]
  else []

/-- The load loop of `load_json_files`: a read error propagates and
aborts the whole call (the `try` only surrounds `json.load`); a read
document is parsed, appending it on success and the skip diagnostic on
a `JSONDecodeError` — the one caught exception.  `parse` abstracts
`json.load` on decoded text, `none` being a `JSONDecodeError`. -/
def loadLoop (fs : FileSys) (parse : String → Option JValue) :
    List String → List JValue × List String → Except String (List JValue × List String)
  | [], acc => .ok acc
  | file :: rest, acc =>
    match fs.readFile file with
    | .error e => .error e
    | .ok content =>
      match parse content with
      | some c => loadLoop fs parse rest (acc.1 ++ [c], acc.2)
      | none => loadLoop fs parse rest
          (acc.1, acc.2 ++ ["Skipping invalid JSON file: " ++ file])

/-- `load_json_files(path)`: either the parsed documents in discovery
order together with the printed diagnostics, or the first uncaught
read exception. -/
def load_json_files (fs : FileSys) (parse : String → Option JValue) (path : String) :
    Except String (List JValue × List String) :=
  loadLoop fs parse (jsonCandidates fs path) ([], [])

lemma loadLoop_ok (fs : FileSys) (parse : String → Option JValue) (xs : List String) :
    ∀ acc, (∀ f ∈ xs, ((fs.readFile f).toOption).isSome = true) →
      loadLoop fs parse xs acc
        = .ok (acc.1 ++ xs.filterMap (fun f => (fs.readFile f).toOption.bind parse),
               acc.2 ++ (xs.filter
                   (fun f => ((fs.readFile f).toOption.bind parse).isNone)).map
                 (fun f => "Skipping invalid JSON file: " ++ f)) := by
  induction xs with
  | nil =>
    intro acc _
    simp [loadLoop]
  | cons x rest ih =>
    intro acc hreads
    have hx := hreads x (List.mem_cons_self x rest)
    obtain ⟨c, hc⟩ : ∃ c, fs.readFile x = .ok c := by
      cases hr : fs.readFile x with
      | error e =>
        rw [hr] at hx
        simp [Except.toOption] at hx
      | ok c => exact ⟨c, rfl⟩
    have hrest : ∀ f ∈ rest, ((fs.readFile f).toOption).isSome = true :=
      fun f hf => hreads f (List.mem_cons_of_mem x hf)
    cases hp : parse c with
    | some v =>
      have hstep : loadLoop fs parse (x :: rest) acc
          = loadLoop fs parse rest (acc.1 ++ [v], acc.2) := by
        simp [loadLoop, hc, hp]
      rw [hstep, ih _ hrest]
      simp [hc, hp, Except.toOption, List.filterMap_cons, List.filter_cons, List.append_assoc]
    | none =>
      have hstep : loadLoop fs parse (x :: rest) acc
          = loadLoop fs parse rest (acc.1, acc.2 ++ ["Skipping invalid JSON file: " ++ x]) := by
        simp [loadLoop, hc, hp]
      rw [hstep, ih _ hrest]
      simp [hc, hp, Except.toOption, List.filterMap_cons, List.filter_cons, List.append_assoc]

/-- A filesystem on which every read raises: the path names no existing
file. -/
def missingFileFS : FileSys :=
  ⟨fun _ => false, fun _ => [], fun f => .error ("FileNotFoundError: " ++ f)⟩

/-- C5 counterexample: a nonexistent path ending in ".json" is still a
candidate (the `elif` branch appends it without an existence check), the
uncaught `FileNotFoundError` from `open()` aborts the call, and the
caller receives no sequence — this loader failure is fatal. -/
theorem loader_fatal_read_counterexample :
    jsonCandidates missingFileFS "missing.json" = ["missing.json"]
    ∧ load_json_files missingFileFS (fun _ => none) "missing.json"
        = .error ("FileNotFoundError: " ++ "missing.json") := by
  decide

/-- C5 (amended): only JSON decode failures are non-fatal.  When every
candidate file can be opened and decoded, the loader returns the
successfully parsed documents in candidate-discovery order, reporting
each candidate whose content fails JSON parsing with a diagnostic
naming it and continuing past it; a read failure (nonexistent file,
non-UTF-8 content) instead propagates as an uncaught exception and the
caller receives no sequence. -/
theorem load_json_files_amended (fs : FileSys) (parse : String → Option JValue)
    (path : String)
    (hreads : ∀ f ∈ jsonCandidates fs path, ((fs.readFile f).toOption).isSome = true) :
    load_json_files fs parse path
      = .ok ((jsonCandidates fs path).filterMap
               (fun f => (fs.readFile f).toOption.bind parse),
             ((jsonCandidates fs path).filter
                 (fun f => ((fs.readFile f).toOption.bind parse).isNone)).map
               (fun f => "Skipping invalid JSON file: " ++ f)) := by
  have h := loadLoop_ok fs parse (jsonCandidates fs path) ([], []) hreads
  simpa [load_json_files] using h

/-- A directory with one well-formed document, one JSON-invalid file and
one ignored non-JSON entry; every read succeeds. -/
def twoFileFS : FileSys :=
  ⟨fun p => decide (p = "dir"),
   fun _ => ["good.json", "bad.json", "notes.txt"],
   fun f => if f = "dir/good.json" then .ok "ok-doc" else .ok "not json"⟩

/-- A toy `json.load`: exactly the text "ok-doc" parses. -/
def toyParse : String → Option JValue :=
  fun s => if s = "ok-doc" then some (.jobj []) else none

/-- Witness for the amended loader theorem: both candidates read
successfully, the good document is returned and the bad one is skipped
with its diagnostic. -/
theorem load_json_files_amended_witness :
    load_json_files twoFileFS toyParse "dir"
      = .ok ((jsonCandidates twoFileFS "dir").filterMap
               (fun f => (twoFileFS.readFile f).toOption.bind toyParse),
             ((jsonCandidates twoFileFS "dir").filter
                 (fun f => ((twoFileFS.readFile f).toOption.bind toyParse).isNone)).map
               (fun f => "Skipping invalid JSON file: " ++ f)) :=
  load_json_files_amended twoFileFS toyParse "dir" (by decide)

/-- The text for one node: `node[1].get('label', 'Unknown')`. -/
def nodeText (p : JValue × Obj) : JValue := jgetD p.2 "label" (.jstr "Unknown")

/-- The label texts of the node-enumeration snapshot, in order. -/
def nodeTexts (G : DiGraph) : List JValue := G.nodes.map nodeText

/-- The squared L2 norm of a vector (float arithmetic idealized over ℝ). -/
noncomputable def normSq {d : ℕ} (v : Fin d → ℝ) : ℝ := ∑ i, v i ^ 2

/-- The L2 norm of a vector. -/
noncomputable def l2norm {d : ℕ} (v : Fin d → ℝ) : ℝ := Real.sqrt (normSq v)

/-- `faiss.normalize_L2` on one row: divide by the norm when the squared
norm is positive; the row is left unchanged otherwise (the `nr > 0`
guard of faiss's fvec_renorm_L2). -/
noncomputable def normalizeL2 {d : ℕ} (v : Fin d → ℝ) : Fin d → ℝ :=
  if 0 < normSq v then fun i => v i / Real.sqrt (normSq v) else v

/-- `generate_embeddings_and_index(G)`: snapshot the node list, encode
the label texts (the encoder is the external model, a parameter),
normalize, append to the index, and write each vector onto its node.
The result is the new index contents and the ordered sequence of
`G.nodes[node_id]['embedding'] = embeddings[i]` writes. -/
noncomputable def generate_embeddings_and_index {d : ℕ}
    (encode : List JValue → List (Fin d → ℝ)) (G : DiGraph)
    (index : List (Fin d → ℝ)) :
    List (Fin d → ℝ) × List (JValue × (Fin d → ℝ)) :=
  let node_list := G.nodes
  let texts := node_list.map nodeText
  let embeddings := (encode texts).map normalizeL2
  (index ++ embeddings, (node_list.map (·.1)).zip embeddings)

/-- The 'embedding' attribute of node `k` after the write loop: the last
write whose key is `k`. -/
def embAttr {d : ℕ} (writes : List (JValue × (Fin d → ℝ))) (k : JValue) :
    Option (Fin d → ℝ) :=
  (writes.reverse.find? (fun p => decide (p.1 = k))).map (·.2)

lemma embAttr_zip {d : ℕ} (ks : List JValue) :
    ∀ (es : List (Fin d → ℝ)) (i : ℕ) (k : JValue), ks.Nodup → ks.length = es.length →
      ks[i]? = some k → embAttr (ks.zip es) k = es[i]? := by
  induction ks with
  | nil =>
    intro es i k _ _ hk
    simp at hk
  | cons k0 ks ih =>
    intro es i k hnodup hlen hk
    cases es with
    | nil => simp at hlen
    | cons e0 es =>
      have hnot : k0 ∉ ks := (List.nodup_cons.mp hnodup).1
      cases i with
      | zero =>
        have hk0 : k0 = k := by simpa using hk
        subst hk0
        unfold embAttr
        rw [List.zip_cons_cons, List.reverse_cons, List.find?_append]
        have hnone : List.find? (fun p => decide (p.1 = k0)) ((ks.zip es).reverse) = none := by
          apply List.find?_eq_none.mpr
          intro x hx
          obtain ⟨a, b⟩ := x
          rw [List.mem_reverse] at hx
          have hx1 : a ∈ ks := (List.of_mem_zip hx).1
          simp only [decide_eq_true_eq]
          intro heq
          exact hnot (heq ▸ hx1)
        rw [hnone]
        simp [List.find?]
      | succ j =>
        have hk2 : ks[j]? = some k := by simpa using hk
        have hlen2 : ks.length = es.length := by simpa using hlen
        have ihh := ih es j k (List.nodup_cons.mp hnodup).2 hlen2 hk2
        unfold embAttr at ihh ⊢
        rw [List.zip_cons_cons, List.reverse_cons, List.find?_append]
        cases hfind : List.find? (fun p => decide (p.1 = k)) ((ks.zip es).reverse) with
        | some p =>
          rw [hfind] at ihh
          simpa using ihh
        | none =>
          rw [hfind] at ihh
          have hmem : k ∈ ks := List.getElem?_mem hk2
          have hne : ¬ k0 = k := fun h => hnot (h ▸ hmem)
          have hsingle : List.find? (fun p => decide (p.1 = k)) [(k0, e0)] = none := by
            simp [List.find?, hne]
          simp only [hsingle, Option.or_none]
          simpa using ihh

/-- C1: after one indexer run on a fresh empty index, the vector at
index position `i` is the normalized embedding of the `i`-th node of the
snapshot taken at the start of the call, and equals the 'embedding'
attribute written onto that node — so index positions map back to nodes
solely through the snapshot order. -/
theorem embedding_index_alignment {d : ℕ} (encode : List JValue → List (Fin d → ℝ))
    (G : DiGraph) (i : ℕ) (k : JValue)
    (hlen : (encode (nodeTexts G)).length = G.nodes.length)
    (hnodup : (nodeKeys G).Nodup)
    (hk : (nodeKeys G)[i]? = some k) :
    (generate_embeddings_and_index encode G []).1[i]?
        = ((encode (nodeTexts G))[i]?).map normalizeL2
    ∧ embAttr (generate_embeddings_and_index encode G []).2 k
        = (generate_embeddings_and_index encode G []).1[i]? := by
  have hres1 : (generate_embeddings_and_index encode G []).1
      = (encode (nodeTexts G)).map normalizeL2 := by
    simp [generate_embeddings_and_index, nodeTexts]
  have hres2 : (generate_embeddings_and_index encode G []).2
      = (nodeKeys G).zip ((encode (nodeTexts G)).map normalizeL2) := by
    simp [generate_embeddings_and_index, nodeTexts, nodeKeys]
  have hlens : (nodeKeys G).length = ((encode (nodeTexts G)).map normalizeL2).length := by
    simp [nodeKeys, hlen]
  constructor
  · rw [hres1, List.getElem?_map]
  · rw [hres2, hres1, embAttr_zip (nodeKeys G) _ i k hnodup hlens hk]

/-- A literal one-technique graph for concrete instantiations. -/
def oneNodeGraph : DiGraph :=
  ⟨[(.jstr "T1", [("label", .jstr "Phishing"), ("type", .jstr "attack-pattern")])], []⟩

/-- A test encoder mapping every text to the constant-1 vector. -/
noncomputable def constOneEncoder : List JValue → List (Fin 1 → ℝ) :=
  fun ts => ts.map (fun _ => fun _ => 1)

/-- Witness for the alignment theorem on the one-node graph. -/
theorem embedding_index_alignment_witness :
    (generate_embeddings_and_index constOneEncoder oneNodeGraph []).1[0]?
        = ((constOneEncoder (nodeTexts oneNodeGraph))[0]?).map normalizeL2
    ∧ embAttr (generate_embeddings_and_index constOneEncoder oneNodeGraph []).2 (.jstr "T1")
        = (generate_embeddings_and_index constOneEncoder oneNodeGraph []).1[0]? :=
  embedding_index_alignment constOneEncoder oneNodeGraph 0 (.jstr "T1")
    (by simp [constOneEncoder, nodeTexts, oneNodeGraph]) (by decide) (by decide)

lemma normSq_normalizeL2 {d : ℕ} (v : Fin d → ℝ) (h : 0 < normSq v) :
    normSq (normalizeL2 v) = 1 := by
  rw [normalizeL2, if_pos h]
  have hstep : normSq (fun i => v i / Real.sqrt (normSq v))
      = (∑ i, v i ^ 2) / Real.sqrt (normSq v) ^ 2 := by
    rw [normSq, Finset.sum_div]
    exact Finset.sum_congr rfl (fun i _ => div_pow (v i) (Real.sqrt (normSq v)) 2)
  rw [hstep, Real.sq_sqrt (le_of_lt h)]
  have hv : (∑ i, v i ^ 2) = normSq v := rfl
  rw [hv]
  exact div_self (ne_of_gt h)

lemma l2norm_normalizeL2 {d : ℕ} (v : Fin d → ℝ) (h : 0 < normSq v) :
    l2norm (normalizeL2 v) = 1 := by
  rw [l2norm, normSq_normalizeL2 v h, Real.sqrt_one]

/-- C6 counterexample: with an encoder that outputs the zero vector, the
indexer stores the zero vector unchanged — faiss's normalize guard skips
rows of zero squared norm — so a stored/indexed vector has L2 norm 0,
not 1. -/
theorem zero_vector_not_unit_norm_counterexample :
    (generate_embeddings_and_index (fun ts => ts.map (fun _ => fun _ => (0 : ℝ)))
        oneNodeGraph []).1
      = [fun _ : Fin 1 => (0 : ℝ)]
    ∧ (generate_embeddings_and_index (fun ts => ts.map (fun _ => fun _ => (0 : ℝ)))
        oneNodeGraph []).2
      = [(.jstr "T1", fun _ : Fin 1 => (0 : ℝ))]
    ∧ l2norm (fun _ : Fin 1 => (0 : ℝ)) = 0
    ∧ (0 : ℝ) ≠ 1 := by
  refine ⟨?_, ?_, ?_, by norm_num⟩
  · simp [generate_embeddings_and_index, nodeTexts, oneNodeGraph, normalizeL2, normSq]
  · simp [generate_embeddings_and_index, nodeTexts, oneNodeGraph, normalizeL2, normSq]
  · simp [l2norm, normSq]

/-- C6 (amended): every vector the indexer appends to the index and every
vector it writes as an 'embedding' attribute has L2 norm 1, provided the
corresponding encoder output has positive squared norm; a zero encoder
output is left unchanged by the normalization (and keeps norm 0). -/
theorem stored_vectors_unit_norm {d : ℕ} (encode : List JValue → List (Fin d → ℝ))
    (G : DiGraph) (index : List (Fin d → ℝ))
    (hpos : ∀ v ∈ encode (nodeTexts G), 0 < normSq v) :
    (∀ w ∈ ((generate_embeddings_and_index encode G index).1).drop index.length,
        l2norm w = 1)
    ∧ (∀ p ∈ (generate_embeddings_and_index encode G index).2, l2norm p.2 = 1) := by
  have hres1 : ((generate_embeddings_and_index encode G index).1).drop index.length
      = (encode (nodeTexts G)).map normalizeL2 := by
    simp [generate_embeddings_and_index, nodeTexts, List.drop_left]
  have hres2 : (generate_embeddings_and_index encode G index).2
      = (nodeKeys G).zip ((encode (nodeTexts G)).map normalizeL2) := by
    simp [generate_embeddings_and_index, nodeTexts, nodeKeys]
  constructor
  · intro w hw
    rw [hres1] at hw
    obtain ⟨v, hv, rfl⟩ := List.mem_map.mp hw
    exact l2norm_normalizeL2 v (hpos v hv)
  · intro p hp
    rw [hres2] at hp
    obtain ⟨k, e⟩ := p
    have he : e ∈ (encode (nodeTexts G)).map normalizeL2 := (List.of_mem_zip hp).2
    obtain ⟨v, hv, rfl⟩ := List.mem_map.mp he
    exact l2norm_normalizeL2 v (hpos v hv)

/-- Witness for the unit-norm theorem with the constant-1 encoder. -/
theorem stored_vectors_unit_norm_witness :
    (∀ w ∈ ((generate_embeddings_and_index constOneEncoder oneNodeGraph []).1).drop
        (List.length ([] : List (Fin 1 → ℝ))), l2norm w = 1)
    ∧ (∀ p ∈ (generate_embeddings_and_index constOneEncoder oneNodeGraph []).2,
        l2norm p.2 = 1) :=
  stored_vectors_unit_norm constOneEncoder oneNodeGraph []
    (by
      intro v hv
      simp only [constOneEncoder, List.mem_map] at hv
      obtain ⟨t, _, rfl⟩ := hv
      simp [normSq])

/-- C8: on a graph with an empty node set the indexer encodes the empty
batch, appends nothing to the index, and performs no attribute writes;
the embedding is total, so the call completes without error. -/
theorem indexer_empty_graph_noop {d : ℕ} (encode : List JValue → List (Fin d → ℝ))
    (G : DiGraph) (index : List (Fin d → ℝ))
    (hG : G.nodes = []) (henc : encode [] = []) :
    (generate_embeddings_and_index encode G index).1 = index
    ∧ (generate_embeddings_and_index encode G index).2 = [] := by
  constructor <;> simp [generate_embeddings_and_index, hG, henc]

/-- Witness: the empty graph with an encoder sending `[]` to `[]`. -/
theorem indexer_empty_graph_noop_witness :
    (generate_embeddings_and_index constOneEncoder DiGraph.empty []).1
        = ([] : List (Fin 1 → ℝ))
    ∧ (generate_embeddings_and_index constOneEncoder DiGraph.empty []).2 = [] :=
  indexer_empty_graph_noop constOneEncoder DiGraph.empty [] rfl rfl

/-- `PLATFORM_MAPPING` from `mitre_processor2.py`. -/
def PLATFORM_MAPPING : List (String × List String) :=
  [("containers", ["container", "containers", "docker", "podman", "kubernetes"])]

/-- `PLATFORM_MAPPING.get(target_platform, [target_platform])`; the dict
lookup is case-sensitive. -/
def get_expanded_platforms (t : String) : List String :=
  (alookup PLATFORM_MAPPING t).getD [t]

/-- `str.lower()`, modelled character-wise (faithful on the ASCII
platform names this program compares). -/
def strLower (s : String) : String := String.mk (s.data.map Char.toLower)

/-- `normalize_platform`: lowercase a truthy string, "" for a falsy one. -/
def normalize_platform (p : String) : String :=
  if p ≠ "" then strLower p else ""

/-- `normalize_platform` on an element of `x_mitre_platforms`: strings
are normalized as above, falsy values give "" (a truthy non-string would
raise AttributeError in Python; not reached on well-formed input). -/
def normalizeJVal : JValue → String
  | .jstr s => normalize_platform s
  | _ => ""

/-- `platform_check(mitre_object, target_platform)`: false when
`x_mitre_platforms` is missing/falsy, else true iff some expanded target
platform equals some object platform after normalization. -/
def platform_check (o : Obj) (target : String) : Bool :=
  let expanded := get_expanded_platforms target
  let ops := jgetD o "x_mitre_platforms" (.jlist [])
  if truthy ops then
    expanded.any (fun e =>
      (pyIter ops).any (fun op => decide (normalizeJVal op = normalize_platform e)))
  else false

/-- The filter of `process_mitre`: the attack-pattern objects passing
`platform_check` (a non-dict entry raises in Python; never matched here). -/
def isMatchingObject (platform : String) : JValue → Bool
  | .jobj o => decide (jget o "type" = some (.jstr "attack-pattern")) && platform_check o platform
  | _ => false

/-- The `filtered_objects` list comprehension of `process_mitre`. -/
def filteredObjects (mitre_data : Obj) (platform : String) : List JValue :=
  (pyIter (jgetD mitre_data "objects" (.jlist []))).filter (isMatchingObject platform)

/-- `process_mitre` after a successful file read (file-read failures also
return `None` and are handled by the caller): `None` when no object
passes the filter, else the filtered data dictionary. -/
def process_mitre (mitre_data : Obj) (platform : String) : Option Obj :=
  let filtered := filteredObjects mitre_data platform
  if filtered.isEmpty then none
  else some
    [("objects", .jlist filtered),
     ("type", jgetD mitre_data "type" (.jstr "Unknown")),
     ("id", jgetD mitre_data "id" (.jstr "Unknown")),
     ("spec_version", jgetD mitre_data "spec_version" (.jstr "Unknown"))]

lemma normalize_platform_eq_strLower (s : String) : normalize_platform s = strLower s := by
  unfold normalize_platform
  by_cases h : s = ""
  · subst h
    decide
  · rw [if_pos h]

/-- A document with no matching technique for any platform. -/
def emptyFilterDoc : Obj :=
  [("type", .jstr "bundle"), ("id", .jstr "bundle--1"), ("spec_version", .jstr "2.0"),
   ("objects", .jlist [])]

/-- C9 counterexample: on a document whose filtered subset is empty the
function returns `None` — no result object with an empty `objects` list
and preserved top-level fields is produced. -/
theorem process_mitre_none_counterexample :
    filteredObjects emptyFilterDoc "windows" = []
    ∧ process_mitre emptyFilterDoc "windows" = none := by
  decide

/-- C9 (amended): whenever at least one attack-pattern object matches the
platform, the result's `objects` is exactly the matching subset and the
top-level `type`, `id`, `spec_version` are copied from the input (with
"Unknown" substituted when a field is absent); when no object matches,
`process_mitre` returns `None` instead of a result. -/
theorem process_mitre_filter_amended (m : Obj) (platform : String)
    (hne : filteredObjects m platform ≠ []) :
    ∃ r, process_mitre m platform = some r
      ∧ jget r "objects" = some (.jlist (filteredObjects m platform))
      ∧ jget r "type" = some (jgetD m "type" (.jstr "Unknown"))
      ∧ jget r "id" = some (jgetD m "id" (.jstr "Unknown"))
      ∧ jget r "spec_version" = some (jgetD m "spec_version" (.jstr "Unknown")) := by
  unfold process_mitre
  rw [if_neg (by simpa [List.isEmpty_iff] using hne)]
  refine ⟨_, rfl, ?_, ?_, ?_, ?_⟩ <;> simp [jget, alookup]

/-- A document with one matching containers technique and one
non-attack-pattern object. -/
def containerDoc : Obj :=
  [("type", .jstr "bundle"), ("id", .jstr "bundle--2"), ("spec_version", .jstr "2.0"),
   ("objects", .jlist
     [.jobj [("type", .jstr "attack-pattern"), ("id", .jstr "T1610"),
             ("x_mitre_platforms", .jlist [.jstr "Containers"])],
      .jobj [("type", .jstr "malware"), ("id", .jstr "M1")]])]

/-- Witness for the amended filter theorem on `containerDoc`. -/
theorem process_mitre_filter_witness :
    ∃ r, process_mitre containerDoc "containers" = some r
      ∧ jget r "objects" = some (.jlist (filteredObjects containerDoc "containers"))
      ∧ jget r "type" = some (jgetD containerDoc "type" (.jstr "Unknown"))
      ∧ jget r "id" = some (jgetD containerDoc "id" (.jstr "Unknown"))
      ∧ jget r "spec_version" = some (jgetD containerDoc "spec_version" (.jstr "Unknown")) :=
  process_mitre_filter_amended containerDoc "containers" (by decide)

/-- C10: a missing or empty `x_mitre_platforms` always excludes the
object; otherwise, for a string-valued platform list, the check succeeds
iff some object platform matches case-insensitively — against any of
container/containers/docker/podman/kubernetes when the target platform
is the literal "containers", and against the target itself for every
other target. -/
theorem platform_check_semantics (o : Obj) (t : String) (ss : List String) :
    (jget o "x_mitre_platforms" = none → platform_check o t = false)
    ∧ (jget o "x_mitre_platforms" = some (.jlist []) → platform_check o t = false)
    ∧ (jget o "x_mitre_platforms" = some (.jlist (ss.map JValue.jstr)) →
        (platform_check o t = true ↔ ∃ s ∈ ss,
          if t = "containers"
          then strLower s ∈ ["container", "containers", "docker", "podman", "kubernetes"]
          else strLower s = strLower t)) := by
  refine ⟨?_, ?_, ?_⟩
  · intro h
    simp [platform_check, jgetD, h, truthy]
  · intro h
    simp [platform_check, jgetD, h, truthy]
  · intro h
    simp only [platform_check, jgetD, h, Option.getD_some]
    cases hss : ss with
    | nil => simp [truthy]
    | cons s0 rest =>
      rw [← hss]
      have htr : truthy (.jlist (ss.map JValue.jstr)) = true := by
        rw [hss]
        simp [truthy]
      rw [if_pos htr]
      rw [List.any_eq_true]
      constructor
      · rintro ⟨e, he, hinner⟩
        rw [List.any_eq_true] at hinner
        obtain ⟨op, hop, heq⟩ := hinner
        rw [decide_eq_true_eq] at heq
        simp only [pyIter, List.mem_map] at hop
        obtain ⟨s, hs, rfl⟩ := hop
        rw [normalizeJVal, normalize_platform_eq_strLower, normalize_platform_eq_strLower] at heq
        refine ⟨s, hs, ?_⟩
        by_cases ht : t = "containers"
        · subst ht
          rw [if_pos rfl]
          have hexp : get_expanded_platforms "containers"
              = ["container", "containers", "docker", "podman", "kubernetes"] := by decide
          rw [hexp] at he
          have hlower : ∀ x ∈ ["container", "containers", "docker", "podman", "kubernetes"],
              strLower x = x := by decide
          rw [heq, hlower e he]
          exact he
        · rw [if_neg ht]
          have hexp : get_expanded_platforms t = [t] := by
            simp [get_expanded_platforms, PLATFORM_MAPPING, alookup,
              (show ¬ ("containers" = t) from fun hc => ht hc.symm)]
          rw [hexp, List.mem_singleton] at he
          rw [heq, he]
      · rintro ⟨s, hs, hcond⟩
        by_cases ht : t = "containers"
        · subst ht
          rw [if_pos rfl] at hcond
          have hexp : get_expanded_platforms "containers"
              = ["container", "containers", "docker", "podman", "kubernetes"] := by decide
          have hlower : ∀ x ∈ ["container", "containers", "docker", "podman", "kubernetes"],
              strLower x = x := by decide
          refine ⟨strLower s, by rw [hexp]; exact hcond, ?_⟩
          rw [List.any_eq_true]
          refine ⟨.jstr s, ?_, ?_⟩
          · simp [pyIter]
            exact hs
          · rw [decide_eq_true_eq, normalizeJVal, normalize_platform_eq_strLower,
              normalize_platform_eq_strLower, hlower (strLower s) hcond]
        · rw [if_neg ht] at hcond
          have hexp : get_expanded_platforms t = [t] := by
            simp [get_expanded_platforms, PLATFORM_MAPPING, alookup,
              (show ¬ ("containers" = t) from fun hc => ht hc.symm)]
          refine ⟨t, by rw [hexp]; exact List.mem_singleton.mpr rfl, ?_⟩
          rw [List.any_eq_true]
          refine ⟨.jstr s, ?_, ?_⟩
          · simp [pyIter]
            exact hs
          · rw [decide_eq_true_eq, normalizeJVal, normalize_platform_eq_strLower,
              normalize_platform_eq_strLower]
            exact hcond

/-- Witness for the platform-check theorem: a missing platform list is
excluded; target "containers" accepts object platform "Docker". -/
theorem platform_check_semantics_witness :
    platform_check [] "linux" = false
    ∧ platform_check [("x_mitre_platforms", .jlist [.jstr "Docker"])] "containers" = true := by
  constructor
  · exact (platform_check_semantics [] "linux" []).1 rfl
  · exact ((platform_check_semantics [("x_mitre_platforms", .jlist [.jstr "Docker"])]
      "containers" ["Docker"]).2.2 rfl).mpr (by decide)
